/-
Verification development for the RCS caching reverse proxy (`main.go`).

The request handler is embedded as a pure function over an explicit cache state.
Everything the handler obtains from outside the process (the clock, the result of
reading the request body, the liveness probe, the upstream forward) is supplied
by an `Env` value, one per handled request.  Requests are handled one at a time;
a run of the server is a sequence of handled requests and janitor runs.  Library
calls (`go-cache`, `crypto/sha256`, `encoding/hex`, `strings`, `net/http`) are
modelled after their documented behaviour.
-/
import Mathlib

namespace RCS

/-- A Go `string`, as the sequence of its characters. -/
abbrev GoString := List Char

/-- A Go `[]byte`. -/
abbrev Bytes := List UInt8

/-! ## `crypto/sha256` and `encoding/hex` -/

/-- The 64 round constants of SHA-256. -/
def K256 : List Nat := [
  0x428a2f98, 0x71374491, 0xb5c0fbcf, 0xe9b5dba5, 0x3956c25b, 0x59f111f1, 0x923f82a4, 0xab1c5ed5,
  0xd807aa98, 0x12835b01, 0x243185be, 0x550c7dc3, 0x72be5d74, 0x80deb1fe, 0x9bdc06a7, 0xc19bf174,
  0xe49b69c1, 0xefbe4786, 0x0fc19dc6, 0x240ca1cc, 0x2de92c6f, 0x4a7484aa, 0x5cb0a9dc, 0x76f988da,
  0x983e5152, 0xa831c66d, 0xb00327c8, 0xbf597fc7, 0xc6e00bf3, 0xd5a79147, 0x06ca6351, 0x14292967,
  0x27b70a85, 0x2e1b2138, 0x4d2c6dfc, 0x53380d13, 0x650a7354, 0x766a0abb, 0x81c2c92e, 0x92722c85,
  0xa2bfe8a1, 0xa81a664b, 0xc24b8b70, 0xc76c51a3, 0xd192e819, 0xd6990624, 0xf40e3585, 0x106aa070,
  0x19a4c116, 0x1e376c08, 0x2748774c, 0x34b0bcb5, 0x391c0cb3, 0x4ed8aa4a, 0x5b9cca4f, 0x682e6ff3,
  0x748f82ee, 0x78a5636f, 0x84c87814, 0x8cc70208, 0x90befffa, 0xa4506ceb, 0xbef9a3f7, 0xc67178f2]

/-- Addition of 32-bit words. -/
def add32 (x y : Nat) : Nat := (x + y) % 2 ^ 32

/-- Rotation of a 32-bit word to the right by `n` bits. -/
def rotr32 (x n : Nat) : Nat := ((x >>> n) ||| (x <<< (32 - n))) % 2 ^ 32

/-- Bitwise complement of a 32-bit word. -/
def not32 (x : Nat) : Nat := x ^^^ 0xffffffff

/-- Big-endian 32-bit words of a byte sequence whose length is a multiple of four. -/
def beWords : List Nat → List Nat
  | a :: b :: c :: d :: rest => (a <<< 24 ||| b <<< 16 ||| c <<< 8 ||| d) :: beWords rest
  | _ => []

/-- The padded message: the bytes, 0x80, zero bytes up to 56 mod 64, the bit length on 8 bytes. -/
def pad256 (msg : Bytes) : List Nat :=
  let n := msg.length
  let zeros := (119 - n % 64) % 64
  let bits := (n * 8) % 2 ^ 64
  msg.map UInt8.toNat ++ [0x80] ++ List.replicate zeros 0 ++
    (List.range 8).map (fun i => (bits >>> (8 * (7 - i))) % 256)

/-- Message schedule, newest word first: grows the 16 words of a block by `n` more. -/
def schedule : Nat → List Nat → List Nat
  | 0, w => w
  | n + 1, w =>
    let w2 := w.getD 1 0
    let w7 := w.getD 6 0
    let w15 := w.getD 14 0
    let w16 := w.getD 15 0
    let s0 := rotr32 w15 7 ^^^ rotr32 w15 18 ^^^ (w15 >>> 3)
    let s1 := rotr32 w2 17 ^^^ rotr32 w2 19 ^^^ (w2 >>> 10)
    schedule n (add32 (add32 (add32 s1 w7) s0) w16 :: w)

/-- The eight working words of SHA-256. -/
structure Digest256 where
  a : Nat
  b : Nat
  c : Nat
  d : Nat
  e : Nat
  f : Nat
  g : Nat
  h : Nat

/-- One round of the compression function, on a round constant and a schedule word. -/
def round256 (s : Digest256) (kw : Nat × Nat) : Digest256 :=
  let S1 := rotr32 s.e 6 ^^^ rotr32 s.e 11 ^^^ rotr32 s.e 25
  let ch := (s.e &&& s.f) ^^^ (not32 s.e &&& s.g)
  let t1 := add32 (add32 (add32 (add32 s.h S1) ch) kw.1) kw.2
  let S0 := rotr32 s.a 2 ^^^ rotr32 s.a 13 ^^^ rotr32 s.a 22
  let maj := (s.a &&& s.b) ^^^ (s.a &&& s.c) ^^^ (s.b &&& s.c)
  let t2 := add32 S0 maj
  ⟨add32 t1 t2, s.a, s.b, s.c, add32 s.d t1, s.e, s.f, s.g⟩

/-- The compression function on one block of 16 words. -/
def block256 (s : Digest256) (blk : List Nat) : Digest256 :=
  let w := (schedule 48 blk.reverse).reverse
  let t := (K256.zip w).foldl round256 s
  ⟨add32 s.a t.a, add32 s.b t.b, add32 s.c t.c, add32 s.d t.d,
   add32 s.e t.e, add32 s.f t.f, add32 s.g t.g, add32 s.h t.h⟩

/-- Splits the word sequence in blocks of 16 words and compresses each in turn. -/
def blocks256 : Nat → Digest256 → List Nat → Digest256
  | 0, s, _ => s
  | n + 1, s, ws => blocks256 n (block256 s (ws.take 16)) (ws.drop 16)

/-- The four bytes of a 32-bit word, most significant first. -/
def wordBytes (w : Nat) : Bytes :=
  [UInt8.ofNat (w >>> 24), UInt8.ofNat (w >>> 16), UInt8.ofNat (w >>> 8), UInt8.ofNat w]

/-- Model of `sha256.Sum256`: the 32-byte SHA-256 digest (FIPS 180-4). -/
def Sum256 (data : Bytes) : Bytes :=
  let ws := beWords (pad256 data)
  let s := blocks256 (ws.length / 16)
    ⟨0x6a09e667, 0xbb67ae85, 0x3c6ef372, 0xa54ff53a, 0x510e527f, 0x9b05688c, 0x1f83d9ab, 0x5be0cd19⟩ ws
  wordBytes s.a ++ wordBytes s.b ++ wordBytes s.c ++ wordBytes s.d ++
    wordBytes s.e ++ wordBytes s.f ++ wordBytes s.g ++ wordBytes s.h

/-- The digit table of `encoding/hex`. -/
def hextable : List Char :=
  ['0', '1', '2', '3', '4', '5', '6', '7', '8', '9', 'a', 'b', 'c', 'd', 'e', 'f']

/-- Model of `hex.EncodeToString`: two lowercase hexadecimal digits per byte, high nibble first. -/
def EncodeToString (src : Bytes) : GoString :=
  src.flatMap (fun v => [hextable.getD (v.toNat >>> 4) '0', hextable.getD (v.toNat &&& 0x0f) '0'])

/-! ## `strings.Contains` -/

/-- Model of `strings.Contains(s, substr)`: `substr` occurs somewhere within `s`. -/
def Contains : GoString → GoString → Bool
  | [], substr => substr.isEmpty
  | c :: s, substr => substr.isPrefixOf (c :: s) || Contains s substr

/-! ## `http.Header` -/

/-- Model of `http.Header` (`map[string][]string`): one pair per header name. -/
abbrev Header := List (GoString × List GoString)

/-- The token bytes of a header field name (`validHeaderFieldByte`). -/
def validHeaderFieldByte (c : Char) : Bool :=
  c.isAlphanum || [ '!', '#', '$', '%', '&', Char.ofNat 39, '*', '+', '-', '.', '^', '_',
    Char.ofNat 96, '|', '~'].contains c

/-- First letter and every letter after a dash in upper case, the others in lower case. -/
def canonicalLoop : Bool → GoString → GoString
  | _, [] => []
  | upper, c :: cs =>
    let c1 := if upper && c.isLower then c.toUpper
      else if !upper && c.isUpper then c.toLower else c
    c1 :: canonicalLoop (c1 == '-') cs

/-- Model of `textproto.CanonicalMIMEHeaderKey`: a name made of token bytes only is put in
canonical case, any other name is returned unchanged. -/
def CanonicalMIMEHeaderKey (s : GoString) : GoString :=
  if s.all validHeaderFieldByte then canonicalLoop true s else s

/-- The map index expression `h[key]`: the values stored under `key`, empty when absent. -/
def Header.index : Header → GoString → List GoString
  | [], _ => []
  | (k, vs) :: rest, key => if k = key then vs else Header.index rest key

/-- The map assignment `h[key] = vs`. -/
def Header.store : Header → GoString → List GoString → Header
  | [], key, vs => [(key, vs)]
  | (k, old) :: rest, key, vs =>
    if k = key then (k, vs) :: rest else (k, old) :: Header.store rest key vs

/-- Model of `Header.Add`: appends `value` to the values of the canonicalised `key`. -/
def Header.Add (h : Header) (key value : GoString) : Header :=
  let k := CanonicalMIMEHeaderKey key
  Header.store h k (Header.index h k ++ [value])

/-- The header-copy loop of the handler (lines 107-111 and 149-153):
`for key, values := range resp.Header { for _, value := range values { w.Header().Add(key, value) } }`. -/
def copyHeader (src : Header) (w : Header) : Header :=
  src.foldl (fun w kv => kv.2.foldl (fun w value => Header.Add w kv.1 value) w) w

/-! ## `go-cache` -/

/-- An entry of the cache (`cache.Item`): the stored object and its expiry in Unix nanoseconds,
`0` meaning that it never expires. -/
structure Item where
  Object : Bytes
  Expiration : Int
deriving DecidableEq, Repr

/-- The items of the `go-cache` store (`map[string]Item`). -/
abbrev Cache := GoString → Option Item

/-- The constant `cache.NoExpiration`. -/
def NoExpiration : Int := -1

/-- The constant `cache.DefaultExpiration`. -/
def DefaultExpiration : Int := 0

/-- The constant `time.Minute`, in nanoseconds. -/
def Minute : Int := 60000000000

/-- The default expiration given to `cache.New` on line 24. -/
def defaultExpiration : Int := NoExpiration

/-- The store created on line 24: `cache.New(cache.NoExpiration, 60*time.Minute)`. -/
def Cache.New : Cache := fun _ => none

/-- Model of `(*Cache).Set(k, x, d)` at clock reading `now` (Unix nanoseconds): a duration equal
to `DefaultExpiration` is replaced by the store's default; a positive duration gives the expiry
`now + d`; any other duration gives expiry `0` (never expires). -/
def Cache.Set (c : Cache) (k : GoString) (x : Bytes) (d : Int) (now : Nat) : Cache :=
  let d := if d = DefaultExpiration then defaultExpiration else d
  let e : Int := if d > 0 then (now : Int) + d else 0
  fun k1 => if k1 = k then some ⟨x, e⟩ else c k1

/-- Model of `(*Cache).Get(k)` at clock reading `now`: the object stored under `k`, unless there
is none or its expiry is positive and already passed. -/
def Cache.Get (c : Cache) (k : GoString) (now : Nat) : Option Bytes :=
  match c k with
  | none => none
  | some item =>
    if item.Expiration > 0 ∧ (now : Int) > item.Expiration then none else some item.Object

/-- Model of `(*Cache).DeleteExpired()`, run by the janitor every 60 minutes: removes the
entries whose expiry is positive and already passed. -/
def Cache.DeleteExpired (c : Cache) (now : Nat) : Cache :=
  fun k => match c k with
    | none => none
    | some item =>
      if item.Expiration > 0 ∧ (now : Int) > item.Expiration then none else some item

/-! ## Configuration and globals -/

/-- The configuration file (`Config`, lines 18-22). -/
structure Config where
  SourceEndpoint : GoString
  PingTime : Int
  CacheBypass : List GoString
deriving DecidableEq, Repr

/-- The package-level variables of lines 25-27. -/
structure Globals where
  sourceEndpoint : GoString
  PingTime : Int
  cacheBypass : List GoString
deriving DecidableEq, Repr

/-- The initial values of the package-level variables (lines 25-27). -/
def Globals.initial : Globals := ⟨[], 1, []⟩

/-- The assignments `main` makes after a successful `readConfig` (lines 37-38). -/
def main (config : Config) : Globals :=
  { Globals.initial with
    sourceEndpoint := config.SourceEndpoint
    cacheBypass := config.CacheBypass }

/-- Wrap-around of a signed 64-bit integer. -/
def wrapInt64 (x : Int) : Int := (x + 2 ^ 63) % 2 ^ 64 - 2 ^ 63

/-- The duration `time.Duration(PingTime)*time.Minute` of line 104. -/
def pingDuration (g : Globals) : Int := wrapInt64 (g.PingTime * Minute)

/-! ## The handler -/

/-- The parts of an inbound request the handler uses. -/
structure Request where
  Method : GoString
  Path : GoString
  Header : Header
  Body : Bytes
deriving DecidableEq, Repr

/-- The outcome of forwarding a request to the upstream. -/
inductive ForwardResult where
  /-- The call `http.NewRequest` returned an error. -/
  | newRequestErr
  /-- The call `http.DefaultClient.Do` returned an error. -/
  | doErr
  /-- The call `ioutil.ReadAll(resp.Body)` returned an error. -/
  | readAllErr (header : Header)
  /-- The upstream answered and its body was read. -/
  | ok (header : Header) (body : Bytes)
deriving DecidableEq, Repr

/-- What the outside world answers while one request is handled.  Clock readings are
`time.Now().UnixNano()` of a clock that is not before the Unix epoch and far enough from the end
of the `int64` range for `now + d` not to wrap. -/
structure Env where
  /-- Clock reading of `c.Get`. -/
  getNow : Nat
  /-- Clock reading of `c.Set`. -/
  setNow : Nat
  /-- Whether `ioutil.ReadAll(r.Body)` on line 58 returns an error. -/
  bodyErr : Bool
  /-- Whether the probe `http.Get(sourceEndpoint + "test")` on line 118 returns an error. -/
  serverIsDown : Bool
  /-- Outcome of the forward, when one is attempted. -/
  forward : ForwardResult
deriving DecidableEq, Repr

/-- What the handler does to the `http.ResponseWriter`. -/
inductive Response where
  /-- The call `http.Error(w, msg, code)`. -/
  | error (msg : String) (code : Nat)
  /-- Headers added to `w.Header()`, then `w.Write(body)` (status 200 implied). -/
  | write (header : Header) (body : Bytes)
deriving DecidableEq, Repr

/-- The constant `http.StatusInternalServerError`. -/
def StatusInternalServerError : Nat := 500

/-- The constant `http.StatusOK`. -/
def StatusOK : Nat := 200

/-- The status code the client receives. -/
def Response.status : Response → Nat
  | Response.error _ code => code
  | Response.write _ _ => StatusOK

/-- A call made to the upstream. -/
inductive UpstreamCall where
  /-- The probe `http.Get(url)`. -/
  | get (url : GoString)
  /-- The forward `http.DefaultClient.Do(req)`. -/
  | send (method url : GoString) (header : Header) (body : Bytes)
deriving DecidableEq, Repr

/-- Result of handling one request: the cache afterwards, the response, the upstream calls. -/
structure Outcome where
  cache : Cache
  response : Response
  calls : List UpstreamCall

/-- Lines 48-54: whether the path contains one of the bypass patterns. -/
def bypassCache (cacheBypass : List GoString) (path : GoString) : Bool :=
  cacheBypass.any (fun bypass => Contains path bypass)

/-- Line 72: the cache key of the bypass branch. -/
def bypassKey (r : Request) : GoString :=
  r.Path ++ EncodeToString (Sum256 r.Body)

/-- Lines 57-114: the bypass branch. -/
def bypassBranch (g : Globals) (c : Cache) (r : Request) (env : Env) : Outcome :=
  if env.bodyErr then
    ⟨c, Response.error "Error reading request body" StatusInternalServerError, []⟩
  else
    let key := bypassKey r
    match Cache.Get c key env.getNow with
    | some item => ⟨c, Response.write [] item, []⟩
    | none =>
      let call := UpstreamCall.send r.Method (g.sourceEndpoint ++ r.Path) r.Header r.Body
      match env.forward with
      | ForwardResult.newRequestErr =>
        ⟨c, Response.error "Error creating new request" StatusInternalServerError, []⟩
      | ForwardResult.doErr =>
        ⟨c, Response.error "Error from main endpoint" StatusInternalServerError, [call]⟩
      | ForwardResult.readAllErr _ =>
        ⟨c, Response.error "Error reading main endpoint response" StatusInternalServerError,
          [call]⟩
      | ForwardResult.ok header body =>
        ⟨Cache.Set c key body (pingDuration g) env.setNow,
          Response.write (copyHeader header []) body, [call]⟩

/-- Lines 117-165: the path-keyed branch. -/
def pathBranch (g : Globals) (c : Cache) (r : Request) (env : Env) : Outcome :=
  let probe := UpstreamCall.get (g.sourceEndpoint ++ "test".toList)
  if !env.serverIsDown then
    let call := UpstreamCall.send r.Method (g.sourceEndpoint ++ r.Path) r.Header r.Body
    match env.forward with
    | ForwardResult.newRequestErr =>
      ⟨c, Response.error "Error creating new request" StatusInternalServerError, [probe]⟩
    | ForwardResult.doErr =>
      ⟨c, Response.error "Error from main endpoint" StatusInternalServerError, [probe, call]⟩
    | ForwardResult.readAllErr _ =>
      ⟨c, Response.error "Error reading main endpoint response" StatusInternalServerError,
        [probe, call]⟩
    | ForwardResult.ok header body =>
      ⟨Cache.Set c r.Path body NoExpiration env.setNow,
        Response.write (copyHeader header []) body, [probe, call]⟩
  else
    match Cache.Get c r.Path env.getNow with
    | some item => ⟨c, Response.write [] item, [probe]⟩
    | none => ⟨c, Response.error "Server is down" StatusInternalServerError, [probe]⟩

/-- The request handler (lines 46-168). -/
def handler (g : Globals) (c : Cache) (r : Request) (env : Env) : Outcome :=
  if bypassCache g.cacheBypass r.Path then bypassBranch g c r env else pathBranch g c r env

/-! ## Runs of the server -/

/-- What happens to the cache over time: a request is handled, or the janitor runs. -/
inductive Event where
  /-- The handler runs on request `r` with the answers `env` of the outside world. -/
  | request (r : Request) (env : Env)
  /-- The janitor calls `DeleteExpired` at clock reading `now`. -/
  | janitor (now : Nat)

/-- The cache after one event. -/
def step (g : Globals) (c : Cache) : Event → Cache
  | Event.request r env => (handler g c r env).cache
  | Event.janitor now => Cache.DeleteExpired c now

/-- The cache after a sequence of events. -/
def run (g : Globals) (c : Cache) (es : List Event) : Cache :=
  es.foldl (step g) c

/-- The bytes of an ASCII literal, to write request and response bodies in examples. -/
def bytesOf (s : String) : Bytes := s.toList.map (fun c => UInt8.ofNat c.toNat)

/-! ## Observations on a run -/

/-- The cache key and the body of the successful forward made while `r` is handled in the cache
state `c`: present when the handler sent the request to the upstream and read its answer. -/
def forwardedFor (g : Globals) (c : Cache) (r : Request) (env : Env) :
    Option (GoString × Bytes) :=
  match env.forward with
  | ForwardResult.ok _ body =>
    if (handler g c r env).calls.any (fun call =>
        match call with
        | UpstreamCall.send _ _ _ _ => true
        | UpstreamCall.get _ => false) then
      some (if bypassCache g.cacheBypass r.Path then bypassKey r else r.Path, body)
    else none
  | _ => none

/-- An entry of the path-keyed kind: the key is a path-keyed path and the entry never expires. -/
def PathEntry (patterns : List GoString) (k : GoString) (item : Item) : Prop :=
  bypassCache patterns k = false ∧ item.Expiration = 0

/-- An entry of the bypass kind: the key is a bypass-classified path followed by 64 lowercase
hexadecimal characters and the entry has a finite expiry. -/
def BypassEntry (patterns : List GoString) (k : GoString) (item : Item) : Prop :=
  ∃ p h, k = p ++ h ∧ bypassCache patterns p = true ∧ h.length = 64 ∧
    (∀ ch ∈ h, ch ∈ "0123456789abcdef".toList) ∧ 0 < item.Expiration

/-! ## Library facts -/

theorem contains_iff_substring (s substr : GoString) :
    Contains s substr = true ↔ substr <:+: s := by
  induction s with
  | nil => cases substr <;> simp [Contains]
  | cons c s ih =>
    rw [Contains, Bool.or_eq_true, ih, List.infix_cons_iff, List.isPrefixOf_iff_prefix]

theorem bypassCache_iff (pats : List GoString) (path : GoString) :
    bypassCache pats path = true ↔ ∃ pat ∈ pats, pat <:+: path := by
  simp [bypassCache, contains_iff_substring]

theorem bypassCache_append (pats : List GoString) (path suffix : GoString)
    (h : bypassCache pats path = true) : bypassCache pats (path ++ suffix) = true := by
  rw [bypassCache_iff] at h ⊢
  obtain ⟨pat, hp, hin⟩ := h
  exact ⟨pat, hp, hin.trans (List.infix_append' [] path suffix)⟩

set_option maxRecDepth 1000000 in
theorem sum256_abc :
    EncodeToString (Sum256 (bytesOf "abc")) =
      "ba7816bf8f01cfea414140de5dae2223b00361a396177a9cb410ff61f20015ad".toList := by
  decide

theorem sum256_length (data : Bytes) : (Sum256 data).length = 32 := by
  simp [Sum256, wordBytes]

theorem encode_cons (v : UInt8) (vs : Bytes) :
    EncodeToString (v :: vs) =
      hextable.getD (v.toNat >>> 4) '0' :: hextable.getD (v.toNat &&& 0x0f) '0' ::
        EncodeToString vs := by
  simp [EncodeToString]

theorem encode_length (src : Bytes) : (EncodeToString src).length = 2 * src.length := by
  induction src with
  | nil => rfl
  | cons v vs ih => rw [encode_cons]; simp [ih]; omega

theorem hash_length (data : Bytes) : (EncodeToString (Sum256 data)).length = 64 := by
  rw [encode_length, sum256_length]

theorem hextable_mem : ∀ n, n < 16 → hextable.getD n '0' ∈ hextable := by decide

theorem hextable_inj : ∀ i, i < 16 → ∀ j, j < 16 →
    hextable.getD i '0' = hextable.getD j '0' → i = j := by decide

theorem hi_lt (v : UInt8) : v.toNat >>> 4 < 16 := by
  have := v.toNat_lt
  rw [Nat.shiftRight_eq_div_pow]; omega

theorem lo_eq (v : UInt8) : v.toNat &&& 0x0f = v.toNat % 16 :=
  Nat.and_pow_two_sub_one_eq_mod v.toNat 4

theorem lo_lt (v : UInt8) : v.toNat &&& 0x0f < 16 := by
  rw [lo_eq]; omega

theorem encode_mem (src : Bytes) : ∀ ch ∈ EncodeToString src, ch ∈ hextable := by
  induction src with
  | nil => simp [EncodeToString]
  | cons v vs ih =>
    intro ch hch
    rw [encode_cons] at hch
    rcases List.mem_cons.1 hch with h | hch
    · exact h ▸ hextable_mem _ (hi_lt v)
    rcases List.mem_cons.1 hch with h | hch
    · exact h ▸ hextable_mem _ (lo_lt v)
    exact ih ch hch

theorem encode_injective (a b : Bytes) (h : EncodeToString a = EncodeToString b) : a = b := by
  induction a generalizing b with
  | nil =>
    cases b with
    | nil => rfl
    | cons w ws => rw [encode_cons] at h; simp [EncodeToString] at h
  | cons v vs ih =>
    cases b with
    | nil => rw [encode_cons] at h; simp [EncodeToString] at h
    | cons w ws =>
      rw [encode_cons, encode_cons] at h
      injection h with h1 h
      injection h with h2 h
      have e1 := hextable_inj _ (hi_lt v) _ (hi_lt w) h1
      have e2 := hextable_inj _ (lo_lt v) _ (lo_lt w) h2
      rw [lo_eq, lo_eq] at e2
      rw [Nat.shiftRight_eq_div_pow, Nat.shiftRight_eq_div_pow] at e1
      have hn : v.toNat = w.toNat := by omega
      have hv : v = w := UInt8.ext hn
      rw [hv, ih ws h]

/-! ## Cache and handler facts -/

theorem key_append_inj (p1 p2 h1 h2 : GoString) (hl : h1.length = h2.length) :
    p1 ++ h1 = p2 ++ h2 ↔ p1 = p2 ∧ h1 = h2 := by
  constructor
  · intro h; exact List.append_inj' h hl
  · rintro ⟨rfl, rfl⟩; rfl

theorem bypassKey_eq_iff (r1 r2 : Request) :
    bypassKey r1 = bypassKey r2 ↔ r1.Path = r2.Path ∧ Sum256 r1.Body = Sum256 r2.Body := by
  unfold bypassKey
  rw [key_append_inj _ _ _ _ (by rw [hash_length, hash_length])]
  constructor
  · rintro ⟨hp, hh⟩; exact ⟨hp, encode_injective _ _ hh⟩
  · rintro ⟨hp, hh⟩; exact ⟨hp, by rw [hh]⟩

theorem bypassKey_ne_path (r : Request) : bypassKey r ≠ r.Path := by
  intro h
  have := congrArg List.length h
  rw [bypassKey, List.length_append, hash_length] at this
  omega

theorem bypassKey_bypass (pats : List GoString) (r : Request)
    (h : bypassCache pats r.Path = true) : bypassCache pats (bypassKey r) = true :=
  bypassCache_append pats r.Path _ h

theorem handler_bypass (g : Globals) (c : Cache) (r : Request) (env : Env)
    (h : bypassCache g.cacheBypass r.Path = true) :
    handler g c r env = bypassBranch g c r env := by
  simp [handler, h]

theorem handler_path (g : Globals) (c : Cache) (r : Request) (env : Env)
    (h : bypassCache g.cacheBypass r.Path = false) :
    handler g c r env = pathBranch g c r env := by
  simp [handler, h]

theorem bypassBranch_calls (g : Globals) (c : Cache) (r : Request) (env : Env) (url : GoString) :
    UpstreamCall.get url ∉ (bypassBranch g c r env).calls := by
  unfold bypassBranch
  split
  · simp
  · dsimp only
    split
    · simp
    · split <;> simp

theorem pathBranch_calls (g : Globals) (c : Cache) (r : Request) (env : Env) :
    UpstreamCall.get (g.sourceEndpoint ++ "test".toList) ∈ (pathBranch g c r env).calls := by
  unfold pathBranch
  dsimp only
  split
  · split <;> simp
  · split <;> simp

theorem branches_ne (g : Globals) (c : Cache) (r : Request) (env : Env) :
    bypassBranch g c r env ≠ pathBranch g c r env := by
  intro h
  have h1 := pathBranch_calls g c r env
  rw [← h] at h1
  exact bypassBranch_calls g c r env _ h1

/-! ## C6: path classification -/

/-- C6. The handler takes the bypass branch exactly when the request path contains at least one
configured pattern as a substring (at any position), and the path-keyed branch exactly when it
contains none; with an empty pattern list every request takes the path-keyed branch. -/
theorem path_classification (g : Globals) (c : Cache) (r : Request) (env : Env) :
    (bypassCache g.cacheBypass r.Path = true ↔
      ∃ pat ∈ g.cacheBypass, ∃ before after, r.Path = before ++ pat ++ after) ∧
    (handler g c r env = bypassBranch g c r env ↔
      ∃ pat ∈ g.cacheBypass, ∃ before after, r.Path = before ++ pat ++ after) ∧
    (handler g c r env = pathBranch g c r env ↔
      ¬ ∃ pat ∈ g.cacheBypass, ∃ before after, r.Path = before ++ pat ++ after) ∧
    (g.cacheBypass = [] → handler g c r env = pathBranch g c r env) := by
  have key : bypassCache g.cacheBypass r.Path = true ↔
      ∃ pat ∈ g.cacheBypass, ∃ before after, r.Path = before ++ pat ++ after := by
    rw [bypassCache_iff]
    constructor
    · rintro ⟨pat, hp, s, t, hst⟩; exact ⟨pat, hp, s, t, hst.symm⟩
    · rintro ⟨pat, hp, s, t, hst⟩; exact ⟨pat, hp, s, t, hst.symm⟩
  refine ⟨key, ?_, ?_, ?_⟩
  · rw [← key]
    constructor
    · intro h
      by_contra hb
      rw [Bool.not_eq_true] at hb
      rw [handler_path g c r env hb] at h
      exact branches_ne g c r env h.symm
    · exact handler_bypass g c r env
  · rw [← key]
    constructor
    · intro h hb
      rw [handler_bypass g c r env hb] at h
      exact branches_ne g c r env h
    · intro hb
      rw [Bool.not_eq_true] at hb
      exact handler_path g c r env hb
  · intro hnil
    apply handler_path
    simp [bypassCache, hnil]

/-- C6 at a concrete request: the pattern `models` occurs in the middle of `/api/models/x`. -/
theorem path_classification_witness :
    handler ⟨[], 1, ["models".toList]⟩ Cache.New ⟨[], "/api/models/x".toList, [], []⟩
        ⟨0, 0, false, false, ForwardResult.doErr⟩ =
      bypassBranch ⟨[], 1, ["models".toList]⟩ Cache.New ⟨[], "/api/models/x".toList, [], []⟩
        ⟨0, 0, false, false, ForwardResult.doErr⟩ :=
  (path_classification ⟨[], 1, ["models".toList]⟩ Cache.New ⟨[], "/api/models/x".toList, [], []⟩
    ⟨0, 0, false, false, ForwardResult.doErr⟩).2.1.2
    ⟨"models".toList, by simp, "/api/".toList, "/x".toList, by decide⟩

/-! ## C3: content addressing -/

/-- C3. The bypass branch reads and writes the cache under `path ++ hex(sha256(body))`; the keys of
two requests are equal exactly when the paths are equal and the SHA-256 digests of the bodies are
equal; so equal path and body give the same key, and the same path with bodies of different
digests gives two different keys. -/
theorem bypass_key_content_addressed (g : Globals) (c : Cache) (env : Env) (r1 r2 : Request) :
    bypassKey r1 = r1.Path ++ EncodeToString (Sum256 r1.Body) ∧
    (bypassCache g.cacheBypass r1.Path = true → env.bodyErr = false →
      (∀ item, Cache.Get c (r1.Path ++ EncodeToString (Sum256 r1.Body)) env.getNow = some item →
        (handler g c r1 env).response = Response.write [] item) ∧
      (∀ header body,
        Cache.Get c (r1.Path ++ EncodeToString (Sum256 r1.Body)) env.getNow = none →
        env.forward = ForwardResult.ok header body →
        (handler g c r1 env).cache =
          Cache.Set c (r1.Path ++ EncodeToString (Sum256 r1.Body)) body (pingDuration g)
            env.setNow)) ∧
    (r1.Path ++ EncodeToString (Sum256 r1.Body) = r2.Path ++ EncodeToString (Sum256 r2.Body) ↔
      r1.Path = r2.Path ∧ Sum256 r1.Body = Sum256 r2.Body) ∧
    (r1.Path = r2.Path → r1.Body = r2.Body → bypassKey r1 = bypassKey r2) ∧
    (r1.Path = r2.Path → Sum256 r1.Body ≠ Sum256 r2.Body → bypassKey r1 ≠ bypassKey r2) := by
  refine ⟨rfl, ?_, bypassKey_eq_iff r1 r2, ?_, ?_⟩
  · intro hb he
    rw [handler_bypass g c r1 env hb]
    constructor
    · intro item hget
      simp [bypassBranch, he, bypassKey, hget]
    · intro header body hget hf
      simp [bypassBranch, he, bypassKey, hget, hf]
  · intro hp hbody
    rw [bypassKey_eq_iff]; exact ⟨hp, by rw [hbody]⟩
  · intro _ hne h
    exact hne ((bypassKey_eq_iff r1 r2).1 h).2

set_option maxRecDepth 1000000 in
/-- C3 on the example of the specification: `POST /api/models/x` with the bodies `{"a":1}` and
`{"a":2}` uses two different keys. -/
theorem bypass_key_content_addressed_witness :
    bypassKey ⟨"POST".toList, "/api/models/x".toList, [], bytesOf "\x7b\"a\":1\x7d"⟩ ≠
      bypassKey ⟨"POST".toList, "/api/models/x".toList, [], bytesOf "\x7b\"a\":2\x7d"⟩ :=
  (bypass_key_content_addressed ⟨[], 1, ["/api/models/".toList]⟩ Cache.New
    ⟨0, 0, false, false, ForwardResult.doErr⟩
    ⟨"POST".toList, "/api/models/x".toList, [], bytesOf "\x7b\"a\":1\x7d"⟩
    ⟨"POST".toList, "/api/models/x".toList, [], bytesOf "\x7b\"a\":2\x7d"⟩).2.2.2.2 rfl (by decide)

theorem get_congr (c1 c2 : Cache) (k : GoString) (now : Nat) (h : c1 k = c2 k) :
    Cache.Get c1 k now = Cache.Get c2 k now := by
  simp [Cache.Get, h]

theorem set_other (c : Cache) (k k1 : GoString) (x : Bytes) (d : Int) (now : Nat)
    (h : k1 ≠ k) : Cache.Set c k x d now k1 = c k1 := by
  simp [Cache.Set, h]

theorem bypassBranch_frame (g : Globals) (c : Cache) (r : Request) (env : Env) (k : GoString)
    (h : k ≠ bypassKey r) : (bypassBranch g c r env).cache k = c k := by
  cases hb : env.bodyErr <;> cases hget : Cache.Get c (bypassKey r) env.getNow <;>
    cases hf : env.forward <;> simp [bypassBranch, hb, hget, hf, set_other c _ k _ _ _ h]

theorem pathBranch_frame (g : Globals) (c : Cache) (r : Request) (env : Env) (k : GoString)
    (h : k ≠ r.Path) : (pathBranch g c r env).cache k = c k := by
  cases hb : env.serverIsDown <;> cases hget : Cache.Get c r.Path env.getNow <;>
    cases hf : env.forward <;> simp [pathBranch, hb, hget, hf, set_other c _ k _ _ _ h]

theorem bypassBranch_reads (g : Globals) (c1 c2 : Cache) (r : Request) (env : Env)
    (h : c1 (bypassKey r) = c2 (bypassKey r)) :
    (bypassBranch g c1 r env).response = (bypassBranch g c2 r env).response ∧
    (bypassBranch g c1 r env).calls = (bypassBranch g c2 r env).calls := by
  have hg := get_congr c1 c2 _ env.getNow h
  cases hb : env.bodyErr <;> cases hget : Cache.Get c2 (bypassKey r) env.getNow <;>
    cases hf : env.forward <;> simp [bypassBranch, hb, hg, hget, hf]

theorem pathBranch_reads (g : Globals) (c1 c2 : Cache) (r : Request) (env : Env)
    (h : c1 r.Path = c2 r.Path) :
    (pathBranch g c1 r env).response = (pathBranch g c2 r env).response ∧
    (pathBranch g c1 r env).calls = (pathBranch g c2 r env).calls := by
  have hg := get_congr c1 c2 _ env.getNow h
  cases hb : env.serverIsDown <;> cases hget : Cache.Get c2 r.Path env.getNow <;>
    cases hf : env.forward <;> simp [pathBranch, hb, hg, hget, hf]

theorem keys_ne (pats : List GoString) (r1 r2 : Request)
    (h : r1.Path = r2.Path ∨
      (bypassCache pats r1.Path = true ∧ bypassCache pats r2.Path = false)) :
    bypassKey r1 ≠ r2.Path := by
  rcases h with h | ⟨h1, h2⟩
  · rw [← h]; exact bypassKey_ne_path r1
  · intro he
    have := bypassKey_bypass pats r1 h1
    rw [he, h2] at this
    exact Bool.noConfusion this

/-! ## C4: the two key spaces do not interfere -/

/-- C4. For requests `r1` and `r2` with the same path, or with `r1` bypass-classified and `r2`
path-keyed, the bypass key of `r1` differs from the path key of `r2`; handling `r1` in the bypass
branch leaves the entry under the path key of `r2` as it was and does not depend on it, and
handling `r2` in the path-keyed branch leaves the entry under the bypass key of `r1` as it was and
does not depend on it. -/
theorem key_spaces_disjoint (g : Globals) (r1 r2 : Request)
    (h : r1.Path = r2.Path ∨
      (bypassCache g.cacheBypass r1.Path = true ∧ bypassCache g.cacheBypass r2.Path = false)) :
    r1.Path ++ EncodeToString (Sum256 r1.Body) ≠ r2.Path ∧
    (bypassCache g.cacheBypass r1.Path = true → ∀ (c : Cache) (env : Env),
      (handler g c r1 env).cache r2.Path = c r2.Path ∧
      ∀ c1 : Cache, (∀ k, k ≠ r2.Path → c1 k = c k) →
        (handler g c1 r1 env).response = (handler g c r1 env).response ∧
        (handler g c1 r1 env).calls = (handler g c r1 env).calls) ∧
    (bypassCache g.cacheBypass r2.Path = false → ∀ (c : Cache) (env : Env),
      (handler g c r2 env).cache (r1.Path ++ EncodeToString (Sum256 r1.Body)) =
        c (r1.Path ++ EncodeToString (Sum256 r1.Body)) ∧
      ∀ c1 : Cache, (∀ k, k ≠ r1.Path ++ EncodeToString (Sum256 r1.Body) → c1 k = c k) →
        (handler g c1 r2 env).response = (handler g c r2 env).response ∧
        (handler g c1 r2 env).calls = (handler g c r2 env).calls) := by
  have hne : bypassKey r1 ≠ r2.Path := keys_ne g.cacheBypass r1 r2 h
  refine ⟨hne, ?_, ?_⟩
  · intro hb c env
    constructor
    · rw [handler_bypass g c r1 env hb]
      exact bypassBranch_frame g c r1 env _ (Ne.symm hne)
    · intro c1 hc
      rw [handler_bypass g c1 r1 env hb, handler_bypass g c r1 env hb]
      exact bypassBranch_reads g c1 c r1 env (hc _ hne)
  · intro hb c env
    constructor
    · rw [handler_path g c r2 env hb]
      exact pathBranch_frame g c r2 env _ hne
    · intro c1 hc
      rw [handler_path g c1 r2 env hb, handler_path g c r2 env hb]
      exact pathBranch_reads g c1 c r2 env (hc _ (Ne.symm hne))

/-- C4 at one literal path used for both keys. -/
theorem key_spaces_disjoint_witness :
    "/static/x".toList ++ EncodeToString (Sum256 (bytesOf "q")) ≠ "/static/x".toList :=
  (key_spaces_disjoint ⟨[], 1, ["/api/".toList]⟩
    ⟨"GET".toList, "/static/x".toList, [], bytesOf "q"⟩
    ⟨"GET".toList, "/static/x".toList, [], []⟩ (Or.inl rfl)).1

/-! ## C7: a failed forward is answered with a server error -/

/-- C7. Whenever the handler reaches the forward (bypass branch: body read and cache miss;
path-keyed branch: probe succeeded) and the forward fails, the response is `http.Error` with
status 500 and one of the three forward-failure messages, never a `w.Write` of a body, and the
cache is unchanged, whatever it holds; in the path-keyed branch after a successful probe the
response and the upstream calls do not depend on the cache at all. -/
theorem no_stale_on_forward_failure (g : Globals) (c : Cache) (r : Request) (env : Env)
    (hfail : ∀ header body, env.forward ≠ ForwardResult.ok header body)
    (hreach : (bypassCache g.cacheBypass r.Path = true ∧ env.bodyErr = false ∧
        Cache.Get c (r.Path ++ EncodeToString (Sum256 r.Body)) env.getNow = none) ∨
      (bypassCache g.cacheBypass r.Path = false ∧ env.serverIsDown = false)) :
    ((handler g c r env).response =
        Response.error "Error creating new request" StatusInternalServerError ∨
      (handler g c r env).response =
        Response.error "Error from main endpoint" StatusInternalServerError ∨
      (handler g c r env).response =
        Response.error "Error reading main endpoint response" StatusInternalServerError) ∧
    (handler g c r env).response.status = 500 ∧
    (∀ header body, (handler g c r env).response ≠ Response.write header body) ∧
    (handler g c r env).cache = c ∧
    (bypassCache g.cacheBypass r.Path = false → ∀ c1 : Cache,
      (handler g c1 r env).response = (handler g c r env).response ∧
      (handler g c1 r env).calls = (handler g c r env).calls ∧
      (handler g c1 r env).cache = c1) := by
  rcases hreach with ⟨hb, he, hget⟩ | ⟨hb, hd⟩
  · rw [handler_bypass g c r env hb]
    refine ⟨?_, ?_, ?_, ?_, fun h => by rw [hb] at h; exact Bool.noConfusion h⟩ <;>
      cases hf : env.forward <;>
      first
      | exact absurd hf (hfail _ _)
      | simp [bypassBranch, he, bypassKey, hget, hf, Response.status, StatusInternalServerError]
  · rw [handler_path g c r env hb]
    refine ⟨?_, ?_, ?_, ?_, fun _ c1 => ?_⟩
    iterate 4
      cases hf : env.forward <;>
      first
      | exact absurd hf (hfail _ _)
      | simp [pathBranch, hd, hf, Response.status, StatusInternalServerError]
    rw [handler_path g c1 r env hb]
    cases hf : env.forward <;>
      first
      | exact absurd hf (hfail _ _)
      | simp [pathBranch, hd, hf]

/-- C7 at a concrete request: an entry is cached for the path, the probe succeeds, the transport
fails. -/
theorem no_stale_on_forward_failure_witness :
    (handler ⟨"https://up/".toList, 1, []⟩
      (Cache.Set Cache.New "/a".toList (bytesOf "old") NoExpiration 0)
      ⟨"GET".toList, "/a".toList, [], []⟩ ⟨5, 5, false, false, ForwardResult.doErr⟩).response.status
      = 500 :=
  (no_stale_on_forward_failure ⟨"https://up/".toList, 1, []⟩
    (Cache.Set Cache.New "/a".toList (bytesOf "old") NoExpiration 0)
    ⟨"GET".toList, "/a".toList, [], []⟩ ⟨5, 5, false, false, ForwardResult.doErr⟩
    (by intro header body h; exact ForwardResult.noConfusion h)
    (Or.inr ⟨by decide, rfl⟩)).2.1

/-! ## C8: no fallback available -/

/-- C8. A path-keyed request handled while the probe fails and `c.Get(path)` finds nothing is
answered with `http.Error(w, "Server is down", 500)`; the only upstream call is the probe, no
forward is attempted, the cache is unchanged; and the handler reports the message
`Server is down` in no other situation. -/
theorem no_fallback_available (g : Globals) (c : Cache) (r : Request) (env : Env)
    (hb : bypassCache g.cacheBypass r.Path = false)
    (hd : env.serverIsDown = true)
    (hget : Cache.Get c r.Path env.getNow = none) :
    (handler g c r env).response = Response.error "Server is down" StatusInternalServerError ∧
    (handler g c r env).response.status = 500 ∧
    (handler g c r env).calls = [UpstreamCall.get (g.sourceEndpoint ++ "test".toList)] ∧
    (∀ method url header body,
      UpstreamCall.send method url header body ∉ (handler g c r env).calls) ∧
    (handler g c r env).cache = c ∧
    (∀ (g1 : Globals) (c1 : Cache) (r1 : Request) (env1 : Env) (code : Nat),
      (handler g1 c1 r1 env1).response = Response.error "Server is down" code →
      bypassCache g1.cacheBypass r1.Path = false ∧ env1.serverIsDown = true ∧
        Cache.Get c1 r1.Path env1.getNow = none) := by
  refine ⟨?_, ?_, ?_, ?_, ?_, ?_⟩
  · rw [handler_path g c r env hb]; simp [pathBranch, hd, hget]
  · rw [handler_path g c r env hb]
    simp [pathBranch, hd, hget, Response.status, StatusInternalServerError]
  · rw [handler_path g c r env hb]; simp [pathBranch, hd, hget]
  · rw [handler_path g c r env hb]; simp [pathBranch, hd, hget]
  · rw [handler_path g c r env hb]; simp [pathBranch, hd, hget]
  · intro g1 c1 r1 env1 code h
    cases hb1 : bypassCache g1.cacheBypass r1.Path
    · rw [handler_path g1 c1 r1 env1 hb1] at h
      cases hd1 : env1.serverIsDown <;> cases hg1 : Cache.Get c1 r1.Path env1.getNow <;>
        cases hf1 : env1.forward <;> simp [pathBranch, hd1, hg1, hf1] at h ⊢
    · rw [handler_bypass g1 c1 r1 env1 hb1] at h
      cases he1 : env1.bodyErr <;> cases hg1 : Cache.Get c1 (bypassKey r1) env1.getNow <;>
        cases hf1 : env1.forward <;> simp [bypassBranch, he1, hg1, hf1] at h

/-- C8 at a concrete request on the empty cache. -/
theorem no_fallback_available_witness :
    (handler ⟨"https://up/".toList, 1, ["/api/".toList]⟩ Cache.New
      ⟨"GET".toList, "/index".toList, [], []⟩
      ⟨7, 7, false, true, ForwardResult.doErr⟩).response =
      Response.error "Server is down" StatusInternalServerError :=
  (no_fallback_available ⟨"https://up/".toList, 1, ["/api/".toList]⟩ Cache.New
    ⟨"GET".toList, "/index".toList, [], []⟩ ⟨7, 7, false, true, ForwardResult.doErr⟩
    (by decide) rfl rfl).1

/-! ## C9: header passthrough -/

theorem index_store (h : Header) (k name : GoString) (vs : List GoString) :
    Header.index (Header.store h k vs) name = if name = k then vs else Header.index h name := by
  induction h with
  | nil =>
    by_cases hk : name = k
    · simp [Header.store, Header.index, hk]
    · have hk2 : ¬ k = name := fun e => hk e.symm
      simp [Header.store, Header.index, hk, hk2]
  | cons kv rest ih =>
    obtain ⟨k0, old⟩ := kv
    by_cases h0 : k0 = k
    · subst h0
      by_cases hk : name = k0
      · subst hk; simp [Header.store, Header.index]
      · have hk2 : ¬ k0 = name := fun e => hk e.symm
        simp [Header.store, Header.index, hk, hk2]
    · by_cases hk : name = k
      · subst hk
        simp [Header.store, Header.index, h0, ih]
      · simp only [Header.store, h0, if_false, Header.index, ih, hk]

theorem keys_store (h : Header) (k : GoString) (vs : List GoString) :
    ∀ name ∈ (Header.store h k vs).map Prod.fst, name = k ∨ name ∈ h.map Prod.fst := by
  induction h with
  | nil => intro name hn; simp [Header.store] at hn; exact Or.inl hn
  | cons kv rest ih =>
    obtain ⟨k0, old⟩ := kv
    intro name hn
    by_cases h0 : k0 = k
    · subst h0
      simp only [Header.store, if_true, List.map_cons, List.mem_cons] at hn ⊢
      rcases hn with hn | hn
      · exact Or.inl hn
      · exact Or.inr (Or.inr hn)
    · simp only [Header.store, h0, if_false, List.map_cons, List.mem_cons] at hn ⊢
      rcases hn with hn | hn
      · exact Or.inr (Or.inl hn)
      · rcases ih name hn with h1 | h1
        · exact Or.inl h1
        · exact Or.inr (Or.inr h1)

theorem index_addAll (key : GoString) (values : List GoString) (w : Header) (name : GoString) :
    Header.index (values.foldl (fun w value => Header.Add w key value) w) name =
      if name = CanonicalMIMEHeaderKey key then Header.index w name ++ values
      else Header.index w name := by
  induction values generalizing w with
  | nil => simp
  | cons v vs ih =>
    rw [List.foldl_cons, ih]
    by_cases hk : name = CanonicalMIMEHeaderKey key
    · subst hk; simp [Header.Add, index_store]
    · simp [Header.Add, index_store, hk]

theorem keys_addAll (key : GoString) (values : List GoString) (w : Header) :
    ∀ name ∈ (values.foldl (fun w value => Header.Add w key value) w).map Prod.fst,
      name = CanonicalMIMEHeaderKey key ∨ name ∈ w.map Prod.fst := by
  induction values generalizing w with
  | nil => intro name hn; exact Or.inr hn
  | cons v vs ih =>
    intro name hn
    rw [List.foldl_cons] at hn
    rcases ih _ name hn with h1 | h1
    · exact Or.inl h1
    · exact keys_store w _ _ name h1

theorem index_absent (h : Header) (name : GoString) (hn : name ∉ h.map Prod.fst) :
    Header.index h name = [] := by
  induction h with
  | nil => rfl
  | cons kv rest ih =>
    obtain ⟨k0, vs⟩ := kv
    simp only [List.map_cons, List.mem_cons, not_or] at hn
    have h0 : ¬ k0 = name := fun e => hn.1 e.symm
    simp [Header.index, h0, ih hn.2]

theorem copyHeader_cons (kv : GoString × List GoString) (rest w : Header) :
    copyHeader (kv :: rest) w =
      copyHeader rest (kv.2.foldl (fun w value => Header.Add w kv.1 value) w) := rfl

theorem index_copyHeader (src w : Header) (name : GoString)
    (hnodup : (src.map Prod.fst).Nodup)
    (hcanon : ∀ k ∈ src.map Prod.fst, CanonicalMIMEHeaderKey k = k) :
    Header.index (copyHeader src w) name = Header.index w name ++ Header.index src name := by
  induction src generalizing w with
  | nil => simp [copyHeader, Header.index]
  | cons kv rest ih =>
    obtain ⟨k0, vs⟩ := kv
    rw [List.map_cons, List.nodup_cons] at hnodup
    have hc0 : CanonicalMIMEHeaderKey k0 = k0 := hcanon k0 (by simp)
    have hcr : ∀ k ∈ rest.map Prod.fst, CanonicalMIMEHeaderKey k = k :=
      fun k hk => hcanon k (by simp only [List.map_cons, List.mem_cons]; exact Or.inr hk)
    rw [copyHeader_cons, ih _ hnodup.2 hcr, index_addAll, hc0]
    by_cases hk : name = k0
    · subst hk
      simp [Header.index, index_absent rest name hnodup.1]
    · have hk2 : ¬ k0 = name := fun e => hk e.symm
      simp [Header.index, hk, hk2]

theorem keys_copyHeader (src w : Header)
    (hcanon : ∀ k ∈ src.map Prod.fst, CanonicalMIMEHeaderKey k = k) :
    ∀ name ∈ (copyHeader src w).map Prod.fst,
      name ∈ w.map Prod.fst ∨ name ∈ src.map Prod.fst := by
  induction src generalizing w with
  | nil => intro name hn; exact Or.inl hn
  | cons kv rest ih =>
    obtain ⟨k0, vs⟩ := kv
    intro name hn
    have hc0 : CanonicalMIMEHeaderKey k0 = k0 := hcanon k0 (by simp)
    have hcr : ∀ k ∈ rest.map Prod.fst, CanonicalMIMEHeaderKey k = k :=
      fun k hk => hcanon k (by simp only [List.map_cons, List.mem_cons]; exact Or.inr hk)
    rw [copyHeader_cons] at hn
    rcases ih _ hcr name hn with h1 | h1
    · rcases keys_addAll k0 vs w name h1 with h2 | h2
      · rw [hc0] at h2
        exact Or.inr (by simp [h2])
      · exact Or.inl h2
    · exact Or.inr (by simp only [List.map_cons, List.mem_cons]; exact Or.inr h1)

/-- C9. On a successful forward, in the bypass branch (body read, cache miss) and in the
path-keyed branch (probe succeeded) alike, the handler writes the upstream's body with a header
set that holds, under every name, exactly the values the upstream returned under that name, in
the same order, and that has no name the upstream did not return.  The upstream's header map has
one entry per name and canonical names, as every response received by `net/http` has. -/
theorem header_passthrough (g : Globals) (c : Cache) (r : Request) (env : Env)
    (header : Header) (body : Bytes)
    (hok : env.forward = ForwardResult.ok header body)
    (hreach : (bypassCache g.cacheBypass r.Path = true ∧ env.bodyErr = false ∧
        Cache.Get c (r.Path ++ EncodeToString (Sum256 r.Body)) env.getNow = none) ∨
      (bypassCache g.cacheBypass r.Path = false ∧ env.serverIsDown = false))
    (hnodup : (header.map Prod.fst).Nodup)
    (hcanon : ∀ k ∈ header.map Prod.fst, CanonicalMIMEHeaderKey k = k) :
    ∃ w, (handler g c r env).response = Response.write w body ∧
      (∀ name, Header.index w name = Header.index header name) ∧
      (∀ name ∈ w.map Prod.fst, name ∈ header.map Prod.fst) := by
  refine ⟨copyHeader header [], ?_, ?_, ?_⟩
  · rcases hreach with ⟨hb, he, hget⟩ | ⟨hb, hd⟩
    · rw [handler_bypass g c r env hb]
      simp [bypassBranch, he, bypassKey, hget, hok]
    · rw [handler_path g c r env hb]
      simp [pathBranch, hd, hok]
  · intro name
    rw [index_copyHeader header [] name hnodup hcanon]
    simp [Header.index]
  · intro name hn
    rcases keys_copyHeader header [] hcanon name hn with h1 | h1
    · simp at h1
    · exact h1

/-- C9 at a concrete upstream response with a two-valued header. -/
theorem header_passthrough_witness :
    ∃ w, (handler ⟨"https://up/".toList, 1, []⟩ Cache.New
        ⟨"GET".toList, "/a".toList, [], []⟩
        ⟨3, 4, false, false, ForwardResult.ok
          [("Content-Type".toList, ["text/html".toList]),
            ("Set-Cookie".toList, ["a=1".toList, "b=2".toList])] (bytesOf "hi")⟩).response =
        Response.write w (bytesOf "hi") ∧
      (∀ name, Header.index w name = Header.index
        [("Content-Type".toList, ["text/html".toList]),
          ("Set-Cookie".toList, ["a=1".toList, "b=2".toList])] name) ∧
      (∀ name ∈ w.map Prod.fst, name ∈
        ([("Content-Type".toList, ["text/html".toList]),
          ("Set-Cookie".toList, ["a=1".toList, "b=2".toList])] : Header).map Prod.fst) :=
  header_passthrough ⟨"https://up/".toList, 1, []⟩ Cache.New
    ⟨"GET".toList, "/a".toList, [], []⟩
    ⟨3, 4, false, false, ForwardResult.ok
      [("Content-Type".toList, ["text/html".toList]),
        ("Set-Cookie".toList, ["a=1".toList, "b=2".toList])] (bytesOf "hi")⟩
    _ _ rfl (Or.inr ⟨by decide, rfl⟩) (by decide) (by decide)

/-! ## C1: stale fallback -/

theorem run_append (g : Globals) (c : Cache) (es1 es2 : List Event) :
    run g c (es1 ++ es2) = run g (run g c es1) es2 := by
  simp [run, List.foldl_append]

theorem run_cons (g : Globals) (c : Cache) (e : Event) (es : List Event) :
    run g c (e :: es) = run g (step g c e) es := rfl

theorem set_self (c : Cache) (k : GoString) (x : Bytes) (d : Int) (now : Nat) :
    Cache.Set c k x d now k =
      some ⟨x, if (if d = DefaultExpiration then defaultExpiration else d) > 0
        then (now : Int) + (if d = DefaultExpiration then defaultExpiration else d) else 0⟩ := by
  simp [Cache.Set]

theorem set_noExpiration_self (c : Cache) (k : GoString) (x : Bytes) (now : Nat) :
    Cache.Set c k x NoExpiration now k = some ⟨x, 0⟩ := by
  rw [set_self]; simp [NoExpiration, DefaultExpiration]

theorem deleteExpired_keep (c : Cache) (now : Nat) (k : GoString) (x : Bytes)
    (h : c k = some ⟨x, 0⟩) : Cache.DeleteExpired c now k = some ⟨x, 0⟩ := by
  simp [Cache.DeleteExpired, h]

theorem get_never_expires (c : Cache) (now : Nat) (k : GoString) (x : Bytes)
    (h : c k = some ⟨x, 0⟩) : Cache.Get c k now = some x := by
  simp [Cache.Get, h]

theorem pathBranch_unchanged (g : Globals) (c : Cache) (r : Request) (env : Env)
    (h : env.serverIsDown = false → ∀ header body, env.forward ≠ ForwardResult.ok header body) :
    (pathBranch g c r env).cache = c := by
  cases hd : env.serverIsDown <;> cases hget : Cache.Get c r.Path env.getNow <;>
    cases hf : env.forward <;>
    first
    | exact absurd hf (h hd _ _)
    | simp [pathBranch, hd, hget, hf]

theorem pathBranch_ok (g : Globals) (c : Cache) (r : Request) (env : Env)
    (header : Header) (body : Bytes)
    (hd : env.serverIsDown = false) (hf : env.forward = ForwardResult.ok header body) :
    pathBranch g c r env =
      ⟨Cache.Set c r.Path body NoExpiration env.setNow,
        Response.write (copyHeader header []) body,
        [UpstreamCall.get (g.sourceEndpoint ++ "test".toList),
          UpstreamCall.send r.Method (g.sourceEndpoint ++ r.Path) r.Header r.Body]⟩ := by
  simp [pathBranch, hd, hf]

theorem stale_entry_kept (g : Globals) (p : GoString) (b : Bytes)
    (hp : bypassCache g.cacheBypass p = false) (es : List Event) :
    ∀ c : Cache, c p = some ⟨b, 0⟩ →
      (∀ r1 env1, Event.request r1 env1 ∈ es → r1.Path = p → env1.serverIsDown = false →
        ∀ header1 body1, env1.forward ≠ ForwardResult.ok header1 body1) →
      run g c es p = some ⟨b, 0⟩ := by
  induction es with
  | nil => intro c hc _; exact hc
  | cons e es ih =>
    intro c hc hno
    rw [run_cons]
    apply ih
    · cases e with
      | janitor now => exact deleteExpired_keep c now p b hc
      | request r1 env1 =>
        show (handler g c r1 env1).cache p = some ⟨b, 0⟩
        cases hb : bypassCache g.cacheBypass r1.Path
        · rw [handler_path g c r1 env1 hb]
          by_cases hpath : r1.Path = p
          · rw [pathBranch_unchanged g c r1 env1
              (hno r1 env1 (List.mem_cons_self _ _) hpath)]
            exact hc
          · rw [pathBranch_frame g c r1 env1 p (fun e => hpath e.symm)]
            exact hc
        · rw [handler_bypass g c r1 env1 hb]
          have hne : bypassKey r1 ≠ p := by
            intro he
            have := bypassKey_bypass g.cacheBypass r1 hb
            rw [he, hp] at this
            exact Bool.noConfusion this
          rw [bypassBranch_frame g c r1 env1 p (Ne.symm hne)]
          exact hc
    · intro r1 env1 hmem
      exact hno r1 env1 (List.mem_cons_of_mem _ hmem)

/-- C1. Under a fixed configuration, from any cache and after any sequence of events `es1`, let a
path-keyed request to path `p` be forwarded successfully (probe succeeded, upstream returned
body `b`).  If, in the events `es2` that follow (requests of either class to any path at any
clock reading, and janitor runs), no path-keyed request to `p` is forwarded successfully, then a
request to `p` handled while the probe fails is answered by `w.Write` of exactly `b`. -/
theorem stale_fallback (g : Globals) (c0 : Cache) (es1 es2 : List Event)
    (r0 : Request) (env0 : Env) (header : Header) (b : Bytes) (r : Request) (env : Env)
    (hpk : bypassCache g.cacheBypass r0.Path = false)
    (hup : env0.serverIsDown = false)
    (hok : env0.forward = ForwardResult.ok header b)
    (hlater : ∀ r1 env1, Event.request r1 env1 ∈ es2 → r1.Path = r0.Path →
      env1.serverIsDown = false →
      ∀ header1 body1, env1.forward ≠ ForwardResult.ok header1 body1)
    (hpath : r.Path = r0.Path)
    (hdown : env.serverIsDown = true) :
    (handler g (run g c0 (es1 ++ Event.request r0 env0 :: es2)) r env).response =
      Response.write [] b := by
  have hpk2 : bypassCache g.cacheBypass r.Path = false := by rw [hpath]; exact hpk
  rw [run_append, run_cons]
  have hstored : step g (run g c0 es1) (Event.request r0 env0) r0.Path = some ⟨b, 0⟩ := by
    show (handler g (run g c0 es1) r0 env0).cache r0.Path = some ⟨b, 0⟩
    rw [handler_path g _ r0 env0 hpk, pathBranch_ok g _ r0 env0 header b hup hok]
    exact set_noExpiration_self _ _ _ _
  have hkept := stale_entry_kept g r0.Path b hpk es2 _ hstored hlater
  rw [handler_path g _ r env hpk2]
  have hget := get_never_expires _ env.getNow r.Path b (by rw [hpath]; exact hkept)
  simp [pathBranch, hdown, hget]

set_option maxRecDepth 1000000 in
/-- C1 at a concrete run: `/index` is cached, then a bypass request, a request to another path, a
failed forward to `/index` and a janitor run two hours later are handled, then the probe fails. -/
theorem stale_fallback_witness :
    (handler ⟨"https://up/".toList, 1, ["/api/".toList]⟩
      (run ⟨"https://up/".toList, 1, ["/api/".toList]⟩ Cache.New
        ([] ++ Event.request ⟨"GET".toList, "/index".toList, [], []⟩
          ⟨0, 0, false, false, ForwardResult.ok [] (bytesOf "home")⟩ ::
          [Event.request ⟨"POST".toList, "/api/x".toList, [], bytesOf "q"⟩
            ⟨1, 1, false, false, ForwardResult.ok [] (bytesOf "v")⟩,
           Event.request ⟨"GET".toList, "/other".toList, [], []⟩
            ⟨2, 2, false, false, ForwardResult.ok [] (bytesOf "o")⟩,
           Event.request ⟨"GET".toList, "/index".toList, [], []⟩
            ⟨3, 3, false, false, ForwardResult.doErr⟩,
           Event.janitor 7200000000000]))
      ⟨"GET".toList, "/index".toList, [], []⟩
      ⟨7200000000001, 7200000000001, false, true, ForwardResult.doErr⟩).response =
      Response.write [] (bytesOf "home") :=
  stale_fallback ⟨"https://up/".toList, 1, ["/api/".toList]⟩ Cache.New []
    [Event.request ⟨"POST".toList, "/api/x".toList, [], bytesOf "q"⟩
      ⟨1, 1, false, false, ForwardResult.ok [] (bytesOf "v")⟩,
     Event.request ⟨"GET".toList, "/other".toList, [], []⟩
      ⟨2, 2, false, false, ForwardResult.ok [] (bytesOf "o")⟩,
     Event.request ⟨"GET".toList, "/index".toList, [], []⟩
      ⟨3, 3, false, false, ForwardResult.doErr⟩,
     Event.janitor 7200000000000]
    ⟨"GET".toList, "/index".toList, [], []⟩
    ⟨0, 0, false, false, ForwardResult.ok [] (bytesOf "home")⟩ [] (bytesOf "home")
    ⟨"GET".toList, "/index".toList, [], []⟩
    ⟨7200000000001, 7200000000001, false, true, ForwardResult.doErr⟩
    (by decide) rfl rfl
    (by
      intro r1 env1 hmem hp hd header1 body1 hf
      simp only [List.mem_cons, List.mem_singleton, Event.request.injEq, List.not_mem_nil,
        or_false] at hmem
      rcases hmem with ⟨rfl, rfl⟩ | ⟨rfl, rfl⟩ | ⟨rfl, rfl⟩ | hmem
      · exact absurd hp (by decide)
      · exact absurd hp (by decide)
      · exact ForwardResult.noConfusion hf
      · exact Event.noConfusion hmem)
    rfl rfl

/-! ## C2: a repeated bypass request is served from the cache -/

theorem expiry_not_passed (d : Int) (now t : Nat)
    (h : 0 < d → (t : Int) ≤ (now : Int) + d) :
    ¬ ((if (if d = DefaultExpiration then defaultExpiration else d) > 0
        then (now : Int) + (if d = DefaultExpiration then defaultExpiration else d) else 0) > 0 ∧
      (t : Int) > (if (if d = DefaultExpiration then defaultExpiration else d) > 0
        then (now : Int) + (if d = DefaultExpiration then defaultExpiration else d) else 0)) := by
  simp only [DefaultExpiration, defaultExpiration, NoExpiration]
  by_cases h0 : d = 0
  · simp [h0]
  · by_cases hd : 0 < d
    · have := h hd
      simp only [h0, if_false, gt_iff_lt, hd, if_true]
      omega
    · simp [h0, hd]

theorem get_live (c : Cache) (k : GoString) (item : Item) (t : Nat)
    (hc : c k = some item)
    (hlive : ¬ (item.Expiration > 0 ∧ (t : Int) > item.Expiration)) :
    Cache.Get c k t = some item.Object := by
  simp only [Cache.Get, hc]
  rw [if_neg hlive]

theorem deleteExpired_live (c : Cache) (k : GoString) (item : Item) (t : Nat)
    (hc : c k = some item)
    (hlive : ¬ (item.Expiration > 0 ∧ (t : Int) > item.Expiration)) :
    Cache.DeleteExpired c t k = some item := by
  simp only [Cache.DeleteExpired, hc]
  rw [if_neg hlive]

theorem bypassBranch_hit (g : Globals) (c : Cache) (r : Request) (env : Env) (x : Bytes)
    (hget : Cache.Get c (bypassKey r) env.getNow = some x) :
    (bypassBranch g c r env).cache = c := by
  cases he : env.bodyErr <;> simp [bypassBranch, he, hget]

theorem bypass_entry_kept (g : Globals) (key : GoString) (item : Item)
    (hkey : bypassCache g.cacheBypass key = true) (es : List Event) :
    ∀ c : Cache, c key = some item →
      (∀ r1 env1, Event.request r1 env1 ∈ es →
        ¬ (item.Expiration > 0 ∧ (env1.getNow : Int) > item.Expiration)) →
      (∀ now, Event.janitor now ∈ es →
        ¬ (item.Expiration > 0 ∧ (now : Int) > item.Expiration)) →
      run g c es key = some item := by
  induction es with
  | nil => intro c hc _ _; exact hc
  | cons e es ih =>
    intro c hc hreq hjan
    rw [run_cons]
    apply ih
    · cases e with
      | janitor now =>
        exact deleteExpired_live c key item now hc (hjan now (List.mem_cons_self _ _))
      | request r1 env1 =>
        show (handler g c r1 env1).cache key = some item
        cases hb : bypassCache g.cacheBypass r1.Path
        · rw [handler_path g c r1 env1 hb]
          have hne : key ≠ r1.Path := by
            intro he
            rw [he, hb] at hkey
            exact Bool.noConfusion hkey
          rw [pathBranch_frame g c r1 env1 key hne]
          exact hc
        · rw [handler_bypass g c r1 env1 hb]
          by_cases hk : key = bypassKey r1
          · have hget := get_live c key item env1.getNow hc
              (hreq r1 env1 (List.mem_cons_self _ _))
            rw [hk] at hget
            rw [bypassBranch_hit g c r1 env1 _ hget]
            exact hc
          · rw [bypassBranch_frame g c r1 env1 key hk]
            exact hc
    · intro r1 env1 hmem
      exact hreq r1 env1 (List.mem_cons_of_mem _ hmem)
    · intro now hmem
      exact hjan now (List.mem_cons_of_mem _ hmem)

theorem copyHeader_eq_nil (header : Header) (body : Bytes) :
    Response.write [] body = Response.write (copyHeader header []) body ↔
      copyHeader header [] = [] := by
  constructor
  · intro h; injection h with h1 _; exact h1.symm
  · intro h; rw [h]

set_option maxRecDepth 1000000 in
/-- C2 fails as stated: the upstream answers the first request `POST /api/x` with the header
`Content-Type: text/plain` and the body `hi`; the second, identical request one second later is
answered from the cache with the body only, so the two responses differ in their headers. -/
theorem bypass_repeat_not_identical :
    bypassCache (main ⟨"https://up/".toList, 1, ["/api/".toList]⟩).cacheBypass "/api/x".toList
      = true ∧
    Cache.Get Cache.New (bypassKey ⟨"POST".toList, "/api/x".toList, [], bytesOf "q"⟩) 0 = none ∧
    (1000000000 : Int) ≤ 0 + pingDuration (main ⟨"https://up/".toList, 1, ["/api/".toList]⟩) ∧
    (handler (main ⟨"https://up/".toList, 1, ["/api/".toList]⟩) Cache.New
      ⟨"POST".toList, "/api/x".toList, [], bytesOf "q"⟩
      ⟨0, 0, false, false, ForwardResult.ok
        [("Content-Type".toList, ["text/plain".toList])] (bytesOf "hi")⟩).response =
      Response.write [("Content-Type".toList, ["text/plain".toList])] (bytesOf "hi") ∧
    (handler (main ⟨"https://up/".toList, 1, ["/api/".toList]⟩)
      (handler (main ⟨"https://up/".toList, 1, ["/api/".toList]⟩) Cache.New
        ⟨"POST".toList, "/api/x".toList, [], bytesOf "q"⟩
        ⟨0, 0, false, false, ForwardResult.ok
          [("Content-Type".toList, ["text/plain".toList])] (bytesOf "hi")⟩).cache
      ⟨"POST".toList, "/api/x".toList, [], bytesOf "q"⟩
      ⟨1000000000, 1000000000, false, false, ForwardResult.doErr⟩).response =
      Response.write [] (bytesOf "hi") ∧
    (handler (main ⟨"https://up/".toList, 1, ["/api/".toList]⟩)
      (handler (main ⟨"https://up/".toList, 1, ["/api/".toList]⟩) Cache.New
        ⟨"POST".toList, "/api/x".toList, [], bytesOf "q"⟩
        ⟨0, 0, false, false, ForwardResult.ok
          [("Content-Type".toList, ["text/plain".toList])] (bytesOf "hi")⟩).cache
      ⟨"POST".toList, "/api/x".toList, [], bytesOf "q"⟩
      ⟨1000000000, 1000000000, false, false, ForwardResult.doErr⟩).response ≠
    (handler (main ⟨"https://up/".toList, 1, ["/api/".toList]⟩) Cache.New
      ⟨"POST".toList, "/api/x".toList, [], bytesOf "q"⟩
      ⟨0, 0, false, false, ForwardResult.ok
        [("Content-Type".toList, ["text/plain".toList])] (bytesOf "hi")⟩).response := by
  decide

/-- C2, amended. After a bypass request that missed the cache and was forwarded successfully, the
same request (same path, same body), handled before the stored entry expires and after any
events `es` whose cache accesses also happen before it expires, is answered by `w.Write` of the
same body with the same status 200, makes no upstream call and leaves the cache as it is; the
second response carries no header, so it equals the first response as a whole exactly when the
first response carried no header. -/
theorem bypass_repeat_served_from_cache (g : Globals) (c : Cache) (r : Request)
    (env1 env2 : Env) (header : Header) (body : Bytes) (es : List Event)
    (hb : bypassCache g.cacheBypass r.Path = true)
    (he1 : env1.bodyErr = false)
    (hmiss : Cache.Get c (r.Path ++ EncodeToString (Sum256 r.Body)) env1.getNow = none)
    (hok : env1.forward = ForwardResult.ok header body)
    (hreq : ∀ r3 env3, Event.request r3 env3 ∈ es → 0 < pingDuration g →
      (env3.getNow : Int) ≤ (env1.setNow : Int) + pingDuration g)
    (hjan : ∀ now, Event.janitor now ∈ es → 0 < pingDuration g →
      (now : Int) ≤ (env1.setNow : Int) + pingDuration g)
    (he2 : env2.bodyErr = false)
    (httl : 0 < pingDuration g → (env2.getNow : Int) ≤ (env1.setNow : Int) + pingDuration g) :
    (handler g c r env1).response = Response.write (copyHeader header []) body ∧
    (handler g (run g (handler g c r env1).cache es) r env2).response =
      Response.write [] body ∧
    (handler g (run g (handler g c r env1).cache es) r env2).response.status =
      (handler g c r env1).response.status ∧
    (handler g (run g (handler g c r env1).cache es) r env2).calls = [] ∧
    (handler g (run g (handler g c r env1).cache es) r env2).cache =
      run g (handler g c r env1).cache es ∧
    ((handler g (run g (handler g c r env1).cache es) r env2).response =
      (handler g c r env1).response ↔ copyHeader header [] = []) := by
  have h1 : handler g c r env1 =
      ⟨Cache.Set c (bypassKey r) body (pingDuration g) env1.setNow,
        Response.write (copyHeader header []) body,
        [UpstreamCall.send r.Method (g.sourceEndpoint ++ r.Path) r.Header r.Body]⟩ := by
    rw [handler_bypass g c r env1 hb]
    simp [bypassBranch, he1, bypassKey, hmiss, hok]
  have hstored := set_self c (bypassKey r) body (pingDuration g) env1.setNow
  have hkept := bypass_entry_kept g (bypassKey r) _ (bypassKey_bypass g.cacheBypass r hb) es
    _ hstored
    (fun r3 env3 hm => expiry_not_passed _ _ _ (hreq r3 env3 hm))
    (fun now hm => expiry_not_passed _ _ _ (hjan now hm))
  have hget := get_live _ (bypassKey r) _ env2.getNow hkept (expiry_not_passed _ _ _ httl)
  have h2 : handler g (run g (handler g c r env1).cache es) r env2 =
      ⟨run g (handler g c r env1).cache es, Response.write [] body, []⟩ := by
    rw [handler_bypass g _ r env2 hb, h1]
    simp [bypassBranch, he2, hget]
  rw [h2]
  rw [h1]
  exact ⟨rfl, rfl, rfl, rfl, rfl, copyHeader_eq_nil header body⟩

set_option maxRecDepth 1000000 in
/-- C2, amended, at a concrete run: the repeat comes two seconds after the first request, with a
request to another path and a janitor run in between. -/
theorem bypass_repeat_served_from_cache_witness :
    (handler (main ⟨"https://up/".toList, 1, ["/api/".toList]⟩)
      (run (main ⟨"https://up/".toList, 1, ["/api/".toList]⟩)
        (handler (main ⟨"https://up/".toList, 1, ["/api/".toList]⟩) Cache.New
          ⟨"POST".toList, "/api/x".toList, [], bytesOf "q"⟩
          ⟨0, 0, false, false, ForwardResult.ok
            [("Content-Type".toList, ["text/plain".toList])] (bytesOf "hi")⟩).cache
        [Event.request ⟨"GET".toList, "/index".toList, [], []⟩
          ⟨1000000000, 1000000000, false, false, ForwardResult.ok [] (bytesOf "home")⟩,
         Event.janitor 1500000000])
      ⟨"POST".toList, "/api/x".toList, [], bytesOf "q"⟩
      ⟨2000000000, 2000000000, false, false, ForwardResult.doErr⟩).calls = [] :=
  (bypass_repeat_served_from_cache (main ⟨"https://up/".toList, 1, ["/api/".toList]⟩) Cache.New
    ⟨"POST".toList, "/api/x".toList, [], bytesOf "q"⟩
    ⟨0, 0, false, false, ForwardResult.ok
      [("Content-Type".toList, ["text/plain".toList])] (bytesOf "hi")⟩
    ⟨2000000000, 2000000000, false, false, ForwardResult.doErr⟩
    [("Content-Type".toList, ["text/plain".toList])] (bytesOf "hi")
    [Event.request ⟨"GET".toList, "/index".toList, [], []⟩
      ⟨1000000000, 1000000000, false, false, ForwardResult.ok [] (bytesOf "home")⟩,
     Event.janitor 1500000000]
    (by decide) rfl rfl rfl
    (by
      intro r3 env3 hmem _
      simp only [List.mem_cons, List.mem_singleton, Event.request.injEq, List.not_mem_nil,
        or_false] at hmem
      rcases hmem with ⟨rfl, rfl⟩ | hmem
      · decide
      · exact Event.noConfusion hmem)
    (by
      intro now hmem _
      simp only [List.mem_cons, List.mem_singleton, Event.janitor.injEq, List.not_mem_nil,
        or_false] at hmem
      rcases hmem with hmem | rfl
      · exact Event.noConfusion hmem
      · decide)
    rfl (by intro _; decide)).2.2.2.1

/-! ## C5: the TTL of a bypass entry -/

theorem pingDuration_main (config : Config) : pingDuration (main config) = 60000000000 := by
  simp [pingDuration, main, Globals.initial, wrapInt64, Minute]

set_option maxRecDepth 1000000 in
/-- C5 fails on the code: `main` never copies `config.PingTime` into `PingTime`, which keeps its
initial value 1.  With `PingTime = 5` in the configuration, a bypass entry written at time 0 is
stored with expiry 1 minute (not 5 minutes), and the same request handled 2 minutes later, inside
the configured 5 minutes, misses the cache and is forwarded again. -/
theorem ttl_ignores_config :
    (∀ config : Config, (main config).PingTime = 1) ∧
    (main ⟨"https://up/".toList, 5, ["/api/".toList]⟩).PingTime = 1 ∧
    (handler (main ⟨"https://up/".toList, 5, ["/api/".toList]⟩) Cache.New
      ⟨"POST".toList, "/api/x".toList, [], bytesOf "q"⟩
      ⟨0, 0, false, false, ForwardResult.ok [] (bytesOf "v1")⟩).cache
      (bypassKey ⟨"POST".toList, "/api/x".toList, [], bytesOf "q"⟩) =
      some ⟨bytesOf "v1", 1 * 60000000000⟩ ∧
    (handler (main ⟨"https://up/".toList, 5, ["/api/".toList]⟩)
      (handler (main ⟨"https://up/".toList, 5, ["/api/".toList]⟩) Cache.New
        ⟨"POST".toList, "/api/x".toList, [], bytesOf "q"⟩
        ⟨0, 0, false, false, ForwardResult.ok [] (bytesOf "v1")⟩).cache
      ⟨"POST".toList, "/api/x".toList, [], bytesOf "q"⟩
      ⟨2 * 60000000000, 2 * 60000000000, false, false,
        ForwardResult.ok [] (bytesOf "v2")⟩).response = Response.write [] (bytesOf "v2") ∧
    (handler (main ⟨"https://up/".toList, 5, ["/api/".toList]⟩)
      (handler (main ⟨"https://up/".toList, 5, ["/api/".toList]⟩) Cache.New
        ⟨"POST".toList, "/api/x".toList, [], bytesOf "q"⟩
        ⟨0, 0, false, false, ForwardResult.ok [] (bytesOf "v1")⟩).cache
      ⟨"POST".toList, "/api/x".toList, [], bytesOf "q"⟩
      ⟨2 * 60000000000, 2 * 60000000000, false, false,
        ForwardResult.ok [] (bytesOf "v2")⟩).calls =
      [UpstreamCall.send "POST".toList "https://up//api/x".toList [] (bytesOf "q")] := by
  refine ⟨fun _ => rfl, ?_⟩
  decide

/-! ## C10: the shape of the cache -/

theorem handler_cases (g : Globals) (c : Cache) (r : Request) (env : Env) :
    ((handler g c r env).cache = c ∧ forwardedFor g c r env = none) ∨
    (∃ body, bypassCache g.cacheBypass r.Path = true ∧
      forwardedFor g c r env = some (bypassKey r, body) ∧
      (handler g c r env).cache =
        Cache.Set c (bypassKey r) body (pingDuration g) env.setNow) ∨
    (∃ body, bypassCache g.cacheBypass r.Path = false ∧
      forwardedFor g c r env = some (r.Path, body) ∧
      (handler g c r env).cache = Cache.Set c r.Path body NoExpiration env.setNow) := by
  cases hb : bypassCache g.cacheBypass r.Path
  · unfold forwardedFor
    rw [handler_path g c r env hb]
    cases hd : env.serverIsDown <;> cases hget : Cache.Get c r.Path env.getNow <;>
      cases hf : env.forward <;> simp [pathBranch, hd, hget, hf, hb]
  · unfold forwardedFor
    rw [handler_bypass g c r env hb]
    cases he : env.bodyErr <;> cases hget : Cache.Get c (bypassKey r) env.getNow <;>
      cases hf : env.forward <;> simp [bypassBranch, he, hget, hf, hb]

theorem deleteExpired_sub (c : Cache) (now : Nat) (k : GoString) (item : Item)
    (h : Cache.DeleteExpired c now k = some item) : c k = some item := by
  unfold Cache.DeleteExpired at h
  cases hc : c k with
  | none => simp [hc] at h
  | some it =>
    simp only [hc] at h
    split at h
    · exact Option.noConfusion h
    · exact h

theorem set_apply (c : Cache) (k k1 : GoString) (x : Bytes) (d : Int) (now : Nat) (item : Item)
    (h : Cache.Set c k x d now k1 = some item) :
    (k1 = k ∧ item.Object = x ∧
      item.Expiration = (if (if d = DefaultExpiration then defaultExpiration else d) > 0
        then (now : Int) + (if d = DefaultExpiration then defaultExpiration else d) else 0)) ∨
    (k1 ≠ k ∧ c k1 = some item) := by
  by_cases hk : k1 = k
  · subst hk
    rw [set_self] at h
    injection h with h
    subst h
    exact Or.inl ⟨rfl, rfl, rfl⟩
  · rw [set_other c k k1 x d now hk] at h
    exact Or.inr ⟨hk, h⟩

theorem hextable_eq : hextable = "0123456789abcdef".toList := by decide

theorem kinds_exclusive (patterns : List GoString) (k : GoString) (item : Item) :
    ¬ (PathEntry patterns k item ∧ BypassEntry patterns k item) := by
  rintro ⟨⟨_, h0⟩, _, _, _, _, _, _, hpos⟩
  omega

theorem step_shape (config : Config) (c : Cache) (e : Event)
    (hinv : ∀ k item, c k = some item →
      PathEntry config.CacheBypass k item ∨ BypassEntry config.CacheBypass k item) :
    ∀ k item, step (main config) c e k = some item →
      PathEntry config.CacheBypass k item ∨ BypassEntry config.CacheBypass k item := by
  intro k item h
  cases e with
  | janitor now => exact hinv k item (deleteExpired_sub c now k item h)
  | request r env =>
    change (handler (main config) c r env).cache k = some item at h
    rcases handler_cases (main config) c r env with ⟨hc, _⟩ | ⟨body, hb, _, hc⟩ | ⟨body, hb, _, hc⟩
    · rw [hc] at h; exact hinv k item h
    · rw [hc] at h
      rcases set_apply _ _ _ _ _ _ _ h with ⟨hk, _, hexp⟩ | ⟨_, hold⟩
      · right
        refine ⟨r.Path, EncodeToString (Sum256 r.Body), hk, hb, hash_length _, ?_, ?_⟩
        · intro ch hch
          rw [← hextable_eq]
          exact encode_mem _ ch hch
        · rw [hexp, pingDuration_main]
          simp [DefaultExpiration]
          omega
      · exact hinv k item hold
    · rw [hc] at h
      rcases set_apply _ _ _ _ _ _ _ h with ⟨hk, _, hexp⟩ | ⟨_, hold⟩
      · left
        refine ⟨by rw [hk]; exact hb, ?_⟩
        rw [hexp]
        simp [NoExpiration, DefaultExpiration]
      · exact hinv k item hold

theorem run_shape (config : Config) (es : List Event) :
    ∀ c : Cache,
      (∀ k item, c k = some item →
        PathEntry config.CacheBypass k item ∨ BypassEntry config.CacheBypass k item) →
      ∀ k item, run (main config) c es k = some item →
        PathEntry config.CacheBypass k item ∨ BypassEntry config.CacheBypass k item := by
  induction es with
  | nil => intro c hinv; exact hinv
  | cons e es ih =>
    intro c hinv
    rw [run_cons]
    exact ih _ (step_shape config c e hinv)

theorem step_entry (g : Globals) (c : Cache) (e : Event) (k : GoString) (item : Item)
    (h : step g c e k = some item) :
    (∃ r env, e = Event.request r env ∧ forwardedFor g c r env = some (k, item.Object)) ∨
    (c k = some item ∧
      ∀ r env body, e = Event.request r env → forwardedFor g c r env ≠ some (k, body)) := by
  cases e with
  | janitor now =>
    right
    exact ⟨deleteExpired_sub c now k item h, fun r env body he => Event.noConfusion he⟩
  | request r env =>
    change (handler g c r env).cache k = some item at h
    rcases handler_cases g c r env with ⟨hc, hnone⟩ | ⟨body, _, hfw, hc⟩ | ⟨body, _, hfw, hc⟩
    · right
      rw [hc] at h
      refine ⟨h, ?_⟩
      intro r1 env1 body1 he
      injection he with hr henv
      subst hr; subst henv
      rw [hnone]; exact Option.noConfusion
    · rw [hc] at h
      rcases set_apply _ _ _ _ _ _ _ h with ⟨hk, hobj, _⟩ | ⟨hk, hold⟩
      · left
        exact ⟨r, env, rfl, by rw [hfw, hk, hobj]⟩
      · right
        refine ⟨hold, ?_⟩
        intro r1 env1 body1 he
        injection he with hr henv
        subst hr; subst henv
        rw [hfw]
        intro hsome
        injection hsome with hsome
        injection hsome with h1 _
        exact hk h1.symm
    · rw [hc] at h
      rcases set_apply _ _ _ _ _ _ _ h with ⟨hk, hobj, _⟩ | ⟨hk, hold⟩
      · left
        exact ⟨r, env, rfl, by rw [hfw, hk, hobj]⟩
      · right
        refine ⟨hold, ?_⟩
        intro r1 env1 body1 he
        injection he with hr henv
        subst hr; subst henv
        rw [hfw]
        intro hsome
        injection hsome with hsome
        injection hsome with h1 _
        exact hk h1.symm

theorem last_forward (g : Globals) (es : List Event) :
    ∀ k item, run g Cache.New es k = some item →
      ∃ es1 r env es2, es = es1 ++ Event.request r env :: es2 ∧
        forwardedFor g (run g Cache.New es1) r env = some (k, item.Object) ∧
        ∀ es2a r1 env1 es2b body1, es2 = es2a ++ Event.request r1 env1 :: es2b →
          forwardedFor g (run g Cache.New (es1 ++ Event.request r env :: es2a)) r1 env1 ≠
            some (k, body1) := by
  induction es using List.reverseRecOn with
  | nil => intro k item h; simp [run, Cache.New] at h
  | append_singleton es e ih =>
    intro k item h
    rw [run_append] at h
    change step g (run g Cache.New es) e k = some item at h
    rcases step_entry g _ e k item h with ⟨r, env, he, hfw⟩ | ⟨hold, hnot⟩
    · subst he
      refine ⟨es, r, env, [], rfl, hfw, ?_⟩
      intro es2a r1 env1 es2b body1 hsplit
      exact absurd (congrArg List.length hsplit) (by simp; omega)
    · obtain ⟨es1, r, env, es2, hes, hfw, hlater⟩ := ih k item hold
      refine ⟨es1, r, env, es2 ++ [e], by rw [hes]; simp, hfw, ?_⟩
      intro es2a r1 env1 es2b body1 hsplit
      rcases List.eq_nil_or_concat es2b with hnil | ⟨L, x, hL⟩
      · subst hnil
        have hsplit2 : es2 ++ [e] = es2a ++ [Event.request r1 env1] := hsplit
        obtain ⟨h1, h2⟩ := List.append_inj' hsplit2 rfl
        have he : e = Event.request r1 env1 := by injection h2
        rw [← h1, ← hes]
        exact hnot r1 env1 body1 he
      · subst hL
        have hsplit2 : es2 ++ [e] = (es2a ++ Event.request r1 env1 :: L) ++ [x] := by
          rw [hsplit]; simp
        obtain ⟨h1, _⟩ := List.append_inj' hsplit2 rfl
        exact hlater es2a r1 env1 L body1 h1

/-- C10. Under the configuration loaded by `main` and starting from the empty cache, after every
sequence of events (handled requests and janitor runs) every cache entry is of exactly one of
two kinds: a path-keyed path as key and no expiry, or a bypass-classified path followed by 64
lowercase hexadecimal characters as key and a finite expiry.  Handling a request without a
successful forward leaves the cache as it is, a successful forward writes the upstream's body
under the request's key and touches no other key, and the janitor only removes entries.  The
payload of every entry is the body of the last successful forward for its key. -/
theorem cache_shape_invariant (config : Config) :
    (∀ es k item, run (main config) Cache.New es k = some item →
      (PathEntry config.CacheBypass k item ∨ BypassEntry config.CacheBypass k item) ∧
      ¬ (PathEntry config.CacheBypass k item ∧ BypassEntry config.CacheBypass k item)) ∧
    (∀ c r env, forwardedFor (main config) c r env = none →
      (handler (main config) c r env).cache = c) ∧
    (∀ c r env k body, forwardedFor (main config) c r env = some (k, body) →
      (∃ e, (handler (main config) c r env).cache k = some ⟨body, e⟩) ∧
      ∀ k1, k1 ≠ k → (handler (main config) c r env).cache k1 = c k1) ∧
    (∀ c now k item, Cache.DeleteExpired c now k = some item → c k = some item) ∧
    (∀ es k item, run (main config) Cache.New es k = some item →
      ∃ es1 r env es2, es = es1 ++ Event.request r env :: es2 ∧
        forwardedFor (main config) (run (main config) Cache.New es1) r env =
          some (k, item.Object) ∧
        ∀ es2a r1 env1 es2b body1, es2 = es2a ++ Event.request r1 env1 :: es2b →
          forwardedFor (main config)
            (run (main config) Cache.New (es1 ++ Event.request r env :: es2a)) r1 env1 ≠
            some (k, body1)) := by
  refine ⟨?_, ?_, ?_, deleteExpired_sub, last_forward (main config)⟩
  · intro es k item h
    refine ⟨run_shape config es Cache.New ?_ k item h, kinds_exclusive _ _ _⟩
    intro k1 item1 h1
    exact Option.noConfusion h1
  · intro c r env hnone
    rcases handler_cases (main config) c r env with ⟨hc, _⟩ | ⟨body, _, hfw, _⟩ | ⟨body, _, hfw, _⟩
    · exact hc
    · rw [hfw] at hnone; exact Option.noConfusion hnone
    · rw [hfw] at hnone; exact Option.noConfusion hnone
  · intro c r env k body hsome
    rcases handler_cases (main config) c r env with ⟨_, hnone⟩ | ⟨b1, _, hfw, hc⟩ | ⟨b1, _, hfw, hc⟩
    · rw [hnone] at hsome; exact Option.noConfusion hsome
    · rw [hfw] at hsome
      injection hsome with hsome
      injection hsome with hk hb
      subst hk; subst hb
      rw [hc]
      exact ⟨⟨_, set_self _ _ _ _ _⟩, fun k1 hk1 => set_other _ _ _ _ _ _ hk1⟩
    · rw [hfw] at hsome
      injection hsome with hsome
      injection hsome with hk hb
      subst hk; subst hb
      rw [hc]
      exact ⟨⟨_, set_self _ _ _ _ _⟩, fun k1 hk1 => set_other _ _ _ _ _ _ hk1⟩

/-- C10 at a concrete run: after `/index` is forwarded successfully, its entry is of the
path-keyed kind. -/
theorem cache_shape_invariant_witness :
    PathEntry ["/api/".toList] "/index".toList ⟨bytesOf "home", 0⟩ ∨
      BypassEntry ["/api/".toList] "/index".toList ⟨bytesOf "home", 0⟩ :=
  ((cache_shape_invariant ⟨"https://up/".toList, 1, ["/api/".toList]⟩).1
    [Event.request ⟨"GET".toList, "/index".toList, [], []⟩
      ⟨0, 0, false, false, ForwardResult.ok [] (bytesOf "home")⟩]
    "/index".toList ⟨bytesOf "home", 0⟩ (by decide)).1

end RCS
